import Mathlib

/-
Verification development for the android see-and-touch simulator repository
(src/main.py and src/touchInputReader.py).

The Python source is shallowly embedded below:

* Device discovery (get_hu_device, identical in both source files) is a loop
  over the connected-device list that breaks at the first device whose
  shell output for "getprop ro.product.manufacturer" contains "Harman".
  A device is modelled by the text that this shell call returns.

* find_image_locations (src/main.py, lines 39-88) is modelled stage by stage:
  validation building exception_group and raising its first element,
  cv.matchTemplate with method TM_CCOEFF_NORMED, numpy thresholding
  (np.where(results >= confidence)), coordinate conversion to window
  centers, and sklearn DBSCAN(eps=5, min_samples=1) followed by the
  first-label-occurrence dedup loop.

* Image files are modelled by their grayscale integer intensity matrices
  (List (List Int)); path existence is a Bool per path.  Exact arithmetic
  stands in for floating point.

* A normalized cross-correlation score num / sqrt den2 is represented
  exactly by the integer pair (num, den2) (NCCScore), so that comparisons
  against a rational confidence threshold stay decidable.

* sklearn DBSCAN with min_samples=1 has no noise category: its documented
  behaviour is that clusters are the connected components of the
  "Euclidean distance <= eps" graph, and labels are component identifiers
  (the downstream dedup loop of the source only uses equality of labels).
  fit raises a ValueError when called on the empty candidate array, since
  np.array([], dtype=int) is a 1-D array with zero samples.
-/

namespace AndroidSim

/-! ## Device discovery (get_hu_device) -/

/-- A connected adb device, modelled by the text that the shell call
getprop ro.product.manufacturer returns for it. -/
structure Device where
  manufacturerOut : String
deriving DecidableEq

/-- Byte-wise test that the first list is an initial segment of the second. -/
def prefixOfB : List Char → List Char → Bool
  | [], _ => true
  | _ :: _, [] => false
  | a :: as, b :: bs => a == b && prefixOfB as bs

/-- Python substring containment (the `in` operator on strings):
needle occurs contiguously inside hay. -/
def containsSub (needle : List Char) : List Char → Bool
  | [] => prefixOfB needle []
  | c :: t => prefixOfB needle (c :: t) || containsSub needle t

/-- The source test: the substring Harman occurs in the manufacturer output. -/
def harman (d : Device) : Bool :=
  containsSub "Harman".toList d.manufacturerOut.toList

/-- get_hu_device (src/main.py lines 8-22, src/touchInputReader.py lines 4-18):
iterate over the device list, keep the first device whose manufacturer
output contains "Harman" and break; return None when no device matches. -/
def get_hu_device : List Device → Option Device
  | [] => none
  | d :: ds => if harman d then some d else get_hu_device ds

/-! ## Errors and validation -/

/-- Python exceptions that the modelled code can raise.  exceptionGroup
models the Python ExceptionGroup class that the commented-out block of
src/main.py (lines 62-65) would have used; the live code never builds one. -/
inductive PyErr where
  | fileNotFound (msg : String)
  | valueError (msg : String)
  | exceptionGroup (msg : String) (errs : List PyErr)

/-- Lines 52-59 of src/main.py: build exception_group in source order
(main path, sub path, confidence bounds check 0 <= c <= 1). -/
def validate (mainExists subExists : Bool) (confidence : ℚ) : List PyErr :=
  (if mainExists then [] else [PyErr.fileNotFound "Main Image Path Not Found!"]) ++
  ((if subExists then [] else [PyErr.fileNotFound "Sub Image Path Not Found!"]) ++
  (if 0 ≤ confidence ∧ confidence ≤ 1 then []
   else [PyErr.valueError "Confidence Interval must be between 0 and 1"]))

/-! ## Template matching (cv.matchTemplate, TM_CCOEFF_NORMED) -/

/-- Exact representation of a normalized cross-correlation score: the real
value num / sqrt den2, with den2 > 0 for every score the matcher emits.
Integer num and den2 suffice because the mean-centered sums of an integer
image, scaled by the window area, are integers, and the area factors of
numerator and denominator cancel in the quotient. -/
structure NCCScore where
  num : ℤ
  den2 : ℤ
deriving DecidableEq

/-- Decides c <= num / sqrt den2 (for den2 > 0 and a rational c = p / q with
q > 0), by clearing denominators and squaring: the inequality is equivalent
to p * sqrt den2 <= q * num, which for q * num >= 0 holds iff p <= 0 or
p^2 * den2 <= (q * num)^2, and for q * num < 0 holds iff p < 0 and
(q * num)^2 <= p^2 * den2.  This models the numpy comparison
results >= confidence_interval. -/
def NCCScore.geB (s : NCCScore) (c : ℚ) : Bool :=
  let p : ℤ := c.num
  let q : ℤ := (c.den : ℤ)
  let R : ℤ := q * s.num
  if 0 ≤ R then decide (p ≤ 0) || decide (p * p * s.den2 ≤ R * R)
  else decide (p < 0) && decide (R * R ≤ p * p * s.den2)

/-- Sum of all entries of a matrix. -/
def mSum (A : List (List ℤ)) : ℤ := (A.map (fun r => r.sum)).sum

/-- Sum of the squares of all entries of a matrix. -/
def mSumSq (A : List (List ℤ)) : ℤ := (A.map (fun r => (r.map (fun v => v * v)).sum)).sum

/-- Elementwise dot product of two matrices of equal shape. -/
def mDot (A B : List (List ℤ)) : ℤ :=
  ((A.zip B).map (fun rr => ((rr.1.zip rr.2).map (fun vv => vv.1 * vv.2)).sum)).sum

/-- The h x w window of M with top-left corner (row i, column j). -/
def window (M : List (List ℤ)) (i j h w : ℕ) : List (List ℤ) :=
  ((M.drop i).take h).map (fun r => (r.drop j).take w)

/-- area times the sum of squared mean-centered entries:
area * mSumSq A - (mSum A)^2.  Zero exactly for a patch with zero
variance (a flat patch). -/
def centSqN (A : List (List ℤ)) (area : ℤ) : ℤ :=
  area * mSumSq A - mSum A * mSum A

/-- area times the numerator of the mean-centered cross correlation of a
window against the template: area * mDot W T - mSum W * mSum T. -/
def ccNumN (Wn T : List (List ℤ)) (area : ℤ) : ℤ :=
  area * mDot Wn T - mSum Wn * mSum T

/-- cv.matchTemplate with TM_CCOEFF_NORMED (src/main.py line 72), in exact
arithmetic.  OpenCV (modules/imgproc/src/templmatch.cpp) special-cases a
zero-variance template for this method and returns an all-ones result;
for a zero-variance window (with a non-degenerate template) the exact
numerator is 0 and OpenCV outputs score 0.  Otherwise the score at
(i, j) is ccNum / sqrt (wVar * tVar); multiplying numerator and the two
variances by the window area leaves the value unchanged and keeps every
quantity an integer, so the emitted NCCScore is
(ccNumN, centSqN W * centSqN T). -/
def matchTemplate (M T : List (List ℤ)) : List (List NCCScore) :=
  let h := T.length
  let w := (T.headD []).length
  let area : ℤ := ((h * w : ℕ) : ℤ)
  let rows := M.length - h + 1
  let cols := (M.headD []).length - w + 1
  if centSqN T area = 0 then
    List.replicate rows (List.replicate cols { num := 1, den2 := 1 })
  else
    (List.range rows).map (fun i => (List.range cols).map (fun j =>
      let Wn := window M i j h w
      let ws := centSqN Wn area
      if ws = 0 then { num := 0, den2 := 1 }
      else { num := ccNumN Wn T area, den2 := ws * centSqN T area }))

/-! ## Threshold filter (np.where and center conversion) -/

/-- A candidate pixel coordinate (x, y).  All coordinates the pipeline
produces are nonnegative, so natural numbers model the Python ints. -/
abbrev Point := ℕ × ℕ

/-- np.where(results >= confidence) on a 2-D array: the list of index pairs
(row i, column j) of the passing cells, in row-major scan order. -/
def passingCells {α : Type} (ge : α → Bool) (S : List (List α)) : List (ℕ × ℕ) :=
  (S.enum.map (fun ir =>
    ((ir.2.enum.filter (fun jv => ge jv.2)).map (fun jv => (ir.1, jv.1))))).flatten

/-- Lines 73-77 of src/main.py: locations = np.where(results >= c) gives the
pair (row indices, column indices); zip(*locations[::-1]) pairs them as
(x, y) = (column, row); each is converted to the window center
(x + w // 2, y + h // 2) with integer floor division. -/
def thresholdPoints {α : Type} (ge : α → Bool) (S : List (List α)) (w h : ℕ) :
    List Point :=
  let locs := passingCells ge S
  let rowIdxs := locs.map (fun p => p.1)
  let colIdxs := locs.map (fun p => p.2)
  (colIdxs.zip rowIdxs).map (fun xy => (xy.1 + w / 2, xy.2 + h / 2))

/-- Spec-side formulation of the threshold filter, written from the words of
the specification (section 4.3): scan S in row-major order (y ascending,
then x ascending), include every cell (i, j) whose score passes, and
convert it to the center coordinate (j + w/2, i + h/2) with integer floor
division.  Compared against thresholdPoints in claim C5. -/
def specCandidates {α : Type} (ge : α → Bool) (v0 : α) (S : List (List α)) (w h : ℕ) :
    List Point :=
  ((List.range S.length).map (fun i =>
    (List.range (S.getD i []).length).filterMap (fun j =>
      if ge ((S.getD i []).getD j v0) then some (j + w / 2, i + h / 2) else none))).flatten

/-! ## Clustering (sklearn DBSCAN eps=5 min_samples=1) and dedup loop -/

/-- Absolute difference of naturals, as clamped differences. -/
def natDist (a b : ℕ) : ℕ := (a - b) + (b - a)

/-- Squared Euclidean distance between two points. -/
def sqDist (p q : Point) : ℕ := natDist p.1 q.1 ^ 2 + natDist p.2 q.2 ^ 2

/-- Euclidean distance at most eps = 5, i.e. squared distance at most 25. -/
def nearB (p q : Point) : Bool := sqDist p q ≤ 25

/-- One edge of the eps-neighborhood graph on the first k indices of the
point list: both indices below k and their points within distance 5. -/
def stepRel (pts : List Point) (k : ℕ) (a b : ℕ) : Prop :=
  a < k ∧ b < k ∧ nearB (pts.getD a (0, 0)) (pts.getD b (0, 0)) = true

instance (pts : List Point) (k a b : ℕ) : Decidable (stepRel pts k a b) := by
  unfold stepRel; infer_instance

/-- Transitive (and reflexive) closure of direct eps-connection among the
first k points: cluster membership in the sense of DBSCAN with
min_samples = 1. -/
def connUpTo (pts : List Point) (k : ℕ) (a b : ℕ) : Prop :=
  Relation.ReflTransGen (stepRel pts k) a b

/-- Does the component c (a list of indices) contain an index whose point is
within eps of point index i? -/
def touchB (pts : List Point) (i : ℕ) (c : List ℕ) : Bool :=
  c.any (fun j => nearB (pts.getD j (0, 0)) (pts.getD i (0, 0)))

/-- Add one index to a component list: all components touching it merge with
it into a single component; the others are unchanged. -/
def mergeInsert (t : List ℕ → Bool) (i : ℕ) (C : List (List ℕ)) : List (List ℕ) :=
  (i :: (C.filter t).flatten) :: C.filter (fun d => !(t d))

/-- The component structure after scanning only the first k point indices. -/
def compsUpTo (pts : List Point) (k : ℕ) : List (List ℕ) :=
  (List.range k).foldl (fun C i => mergeInsert (touchB pts i) i C) []

/-- The connected components of the eps = 5 neighborhood graph of the point
list, as lists of indices, built by scanning the points in input order.
This is the cluster structure sklearn DBSCAN(eps=5, min_samples=1)
computes on np.array(points, dtype=int). -/
def components (pts : List Point) : List (List ℕ) :=
  compsUpTo pts pts.length

/-- Do indices i and j lie in the same DBSCAN cluster? -/
def sameCompB (pts : List Point) (i j : ℕ) : Bool :=
  (components pts).any (fun c => c.contains i && c.contains j)

/-- cluster.labels_ for DBSCAN(eps=5, min_samples=1): one label per input
index; the label value is a component identifier.  The dedup loop of the
source only tests labels for equality, so component identifiers model the
sklearn integer labels faithfully. -/
def dbscanLabels (pts : List Point) : List ℕ :=
  (List.range pts.length).map (fun i => (components pts).findIdx (fun c => c.contains i))

/-- Lines 82-87 of src/main.py: iterate over enumerate(labels); whenever a
label value has not been seen yet, append points[index] to the output and
record the label. -/
def dedupRec (pts : List Point) : ℕ → List ℕ → List ℕ → List Point
  | _, _, [] => []
  | idx, used, l :: ls =>
    if used.contains l then dedupRec pts (idx + 1) used ls
    else pts.getD idx (0, 0) :: dedupRec pts (idx + 1) (l :: used) ls

/-- Line 81 plus lines 82-88 of src/main.py: DBSCAN(...).fit raises a
ValueError when the candidate list is empty, because
np.array([], dtype=int) is a 1-D array with zero samples; otherwise the
labels are computed and the first-occurrence dedup loop runs. -/
def dbscanDedup (points : List Point) : Except PyErr (List Point) :=
  match points with
  | [] => Except.error (PyErr.valueError "Expected 2D array, got 1D array instead")
  | _ :: _ => Except.ok (dedupRec points 0 [] (dbscanLabels points))

/-! ## find_image_locations (src/main.py lines 39-88) -/

/-- find_image_locations.  Path existence is abstracted to one Bool per
path, and each image file is abstracted to the grayscale intensity matrix
the code computes from it (the main image via cv.cvtColor BGR2GRAY, the
sub-image via cv.imread IMREAD_GRAYSCALE).  Lines 52-61 build
exception_group and raise its first element if it is nonempty; only then
do the matcher, the threshold filter and the clustering stages run.
sub_image_width, sub_image_height = sub_image.shape[::-1] makes w the
column count and h the row count of the sub-image. -/
def find_image_locations (mainExists subExists : Bool) (confidence : ℚ)
    (mainImage subImage : List (List ℤ)) : Except PyErr (List Point) :=
  match validate mainExists subExists confidence with
  | e :: _ => Except.error e
  | [] =>
    let w := (subImage.headD []).length
    let h := subImage.length
    let results := matchTemplate mainImage subImage
    let points := thresholdPoints (fun s => s.geB confidence) results w h
    dbscanDedup points

/-! ## Concrete inputs used by the concrete-scenario claims -/

/-- One row of the 20x20 main image crossing the bright block:
8 background pixels, 4 bright pixels, 8 background pixels. -/
def brightRow : List ℤ := List.replicate 8 0 ++ (List.replicate 4 255 ++ List.replicate 8 0)

/-- The 20x20 main image of the concrete scenario: uniform background 0 with
a 4x4 block of 255 whose top-left corner is at (8, 8). -/
def mainImageC6 : List (List ℤ) :=
  List.replicate 8 (List.replicate 20 0) ++
  (List.replicate 4 brightRow ++ List.replicate 8 (List.replicate 20 0))

/-- The matching 4x4 bright sub-image of the concrete scenario. -/
def subImageC6 : List (List ℤ) := List.replicate 4 (List.replicate 4 255)

/-- The confidence value 0.8 = 4/5, written as a normalized rational so that
concrete runs of the pipeline reduce inside the kernel (the Rat arithmetic
operations of this toolchain do not unfold definitionally, while field
projections and comparisons of normalized literals do). -/
def conf08 : ℚ := ⟨4, 5, by norm_num, by norm_num⟩

/-! ## Theorems -/

set_option maxRecDepth 100000
set_option maxHeartbeats 2000000

/-- conf08 is the rational 4/5 of the specification scenario. -/
theorem conf08_eq : conf08 = 4 / 5 := by
  rw [conf08, Rat.mk'_eq_divInt, Rat.divInt_eq_div]
  norm_num

/-- Running the full pipeline on the 20x20 concrete scenario: the uniform
bright sub-image has zero variance, so every score is 1, all 289 window
centers pass the 0.8 threshold, they form a single cluster, and the
first-seen representative (2, 2) is returned. -/
theorem findC6_eval :
    find_image_locations true true conf08 mainImageC6 subImageC6 = Except.ok [(2, 2)] := by
  rfl

/-- C1, counterexample: with the main path missing, the sub path missing and
confidence 2, all three pre-flight checks fail, yet find_image_locations
raises only the first FileNotFoundError, not an aggregate error carrying
an entry for every violation. -/
theorem c1_counterexample :
    validate false false 2 =
      [PyErr.fileNotFound "Main Image Path Not Found!",
       PyErr.fileNotFound "Sub Image Path Not Found!",
       PyErr.valueError "Confidence Interval must be between 0 and 1"] ∧
    find_image_locations false false 2 [] [] =
      Except.error (PyErr.fileNotFound "Main Image Path Not Found!") ∧
    PyErr.fileNotFound "Main Image Path Not Found!" ≠
      PyErr.exceptionGroup "Arguments to the Function were not Valid"
        [PyErr.fileNotFound "Main Image Path Not Found!",
         PyErr.fileNotFound "Sub Image Path Not Found!",
         PyErr.valueError "Confidence Interval must be between 0 and 1"] :=
  ⟨rfl, rfl, fun h => PyErr.noConfusion h⟩

/-- C1 (amended): when one or more pre-flight checks fail,
find_image_locations raises exactly the first failing check in source
order (main path, sub path, confidence), not an aggregate of all of them. -/
theorem c1_first_failing_check_raised (m s : Bool) (c : ℚ)
    (M T : List (List ℤ)) (e : PyErr) (rest : List PyErr)
    (h : validate m s c = e :: rest) :
    find_image_locations m s c M T = Except.error e := by
  unfold find_image_locations
  rw [h]

/-- Witness for c1_first_failing_check_raised at a concrete input where all
three checks fail. -/
theorem c1_witness :
    validate false false 2 =
      PyErr.fileNotFound "Main Image Path Not Found!" ::
        [PyErr.fileNotFound "Sub Image Path Not Found!",
         PyErr.valueError "Confidence Interval must be between 0 and 1"] ∧
    find_image_locations false false 2 [] [] =
      Except.error (PyErr.fileNotFound "Main Image Path Not Found!") :=
  ⟨rfl, c1_first_failing_check_raised false false 2 [] []
    (PyErr.fileNotFound "Main Image Path Not Found!")
    [PyErr.fileNotFound "Sub Image Path Not Found!",
     PyErr.valueError "Confidence Interval must be between 0 and 1"] rfl⟩

/-- C2, counterexample: confidence 2 lies outside [0, 1], but because the
main image path is also missing, find_image_locations raises the
FileNotFoundError for the main path, not the invalid-parameter ValueError,
so the confidence error is not raised independent of path validity. -/
theorem c2_counterexample :
    ¬ (0 ≤ (2 : ℚ) ∧ (2 : ℚ) ≤ 1) ∧
    find_image_locations false true 2 [] [] =
      Except.error (PyErr.fileNotFound "Main Image Path Not Found!") ∧
    PyErr.fileNotFound "Main Image Path Not Found!" ≠
      PyErr.valueError "Confidence Interval must be between 0 and 1" :=
  ⟨by decide, rfl, fun h => PyErr.noConfusion h⟩

/-- C2 (amended): for confidence outside [0, 1] find_image_locations always
raises some validation error; that error is the invalid-parameter ValueError
exactly when both image paths exist, and whenever a path is missing the
earlier path check's FileNotFoundError is raised instead (the main-path one
when the main path is missing, else the sub-path one). -/
theorem c2_invalid_confidence_error (m s : Bool) (c : ℚ) (M T : List (List ℤ))
    (hc : ¬ (0 ≤ c ∧ c ≤ 1)) :
    (∃ e, find_image_locations m s c M T = Except.error e) ∧
    (find_image_locations m s c M T =
        Except.error (PyErr.valueError "Confidence Interval must be between 0 and 1") ↔
      (m = true ∧ s = true)) ∧
    (m = false →
      find_image_locations m s c M T =
        Except.error (PyErr.fileNotFound "Main Image Path Not Found!")) ∧
    (m = true → s = false →
      find_image_locations m s c M T =
        Except.error (PyErr.fileNotFound "Sub Image Path Not Found!")) := by
  cases m <;> cases s <;>
    simp [find_image_locations, validate, hc]

/-- Witness for c2_invalid_confidence_error at confidence 2 with both paths
existing. -/
theorem c2_witness :
    ¬ (0 ≤ (2 : ℚ) ∧ (2 : ℚ) ≤ 1) ∧
    ((∃ e, find_image_locations true true 2 [] [] = Except.error e) ∧
     (find_image_locations true true 2 [] [] =
         Except.error (PyErr.valueError "Confidence Interval must be between 0 and 1") ↔
       (true = true ∧ true = true)) ∧
     (true = false →
       find_image_locations true true 2 [] [] =
         Except.error (PyErr.fileNotFound "Main Image Path Not Found!")) ∧
     (true = true → true = false →
       find_image_locations true true 2 [] [] =
         Except.error (PyErr.fileNotFound "Sub Image Path Not Found!"))) :=
  ⟨by decide, c2_invalid_confidence_error true true 2 [] [] (by decide)⟩

/-- C3: the claim matches the docstring of find_image_locations (an empty
list is returned when the sub-image is not found), but the code path for an
empty candidate list crashes: with both paths valid and confidence 0.8, a
2x2 uniform main image and a 1x2 non-uniform sub-image produce only
zero-variance windows, no score passes the threshold, the candidate list is
empty, and DBSCAN.fit raises a ValueError on the empty 1-D array instead of
letting the function return []. -/
theorem c3_empty_candidates_raise :
    thresholdPoints (fun s => s.geB conf08) (matchTemplate [[0, 0], [0, 0]] [[0, 255]]) 2 1 = [] ∧
    find_image_locations true true conf08 [[0, 0], [0, 0]] [[0, 255]] =
      Except.error (PyErr.valueError "Expected 2D array, got 1D array instead") :=
  ⟨rfl, rfl⟩

/-- C6, counterexample: on the concrete 20x20 scenario with the uniform 4x4
bright sub-image and confidence 0.8, the result is not [(10, 10)]. -/
theorem c6_counterexample :
    find_image_locations true true (4 / 5) mainImageC6 subImageC6 ≠ Except.ok [(10, 10)] := by
  rw [← conf08_eq, findC6_eval]
  simp

/-- C6 (amended): the concrete scenario returns [(2, 2)].  The sub-image has
zero variance, OpenCV TM_CCOEFF_NORMED therefore returns score 1 at every
alignment, every window center passes the 0.8 threshold, the 17x17 grid of
centers forms one cluster under eps = 5, and its first-seen representative
is (2, 2) = (0 + 4 / 2, 0 + 4 / 2). -/
theorem c6_uniform_template_result :
    find_image_locations true true (4 / 5) mainImageC6 subImageC6 = Except.ok [(2, 2)] := by
  rw [← conf08_eq]
  exact findC6_eval

/-- C7: whenever any validation check fails, find_image_locations raises an
error and its behaviour is entirely independent of the image contents: no
image computation influences the outcome. -/
theorem c7_validation_before_processing (m s : Bool) (c : ℚ)
    (M T M2 T2 : List (List ℤ)) (h : validate m s c ≠ []) :
    (∃ e, find_image_locations m s c M T = Except.error e) ∧
    find_image_locations m s c M T = find_image_locations m s c M2 T2 := by
  cases hv : validate m s c with
  | nil => exact absurd hv h
  | cons e rest =>
    refine ⟨⟨e, ?_⟩, ?_⟩ <;> unfold find_image_locations <;> rw [hv]

/-- Witness for c7_validation_before_processing: main path missing, two
different image contents give the identical error outcome. -/
theorem c7_witness :
    validate false true conf08 ≠ [] ∧
    ((∃ e, find_image_locations false true conf08 [[1]] [[2]] = Except.error e) ∧
     find_image_locations false true conf08 [[1]] [[2]] =
       find_image_locations false true conf08 [] []) :=
  ⟨by simp [show validate false true conf08 =
      [PyErr.fileNotFound "Main Image Path Not Found!"] from rfl],
   c7_validation_before_processing false true conf08 [[1]] [[2]] [] []
     (by simp [show validate false true conf08 =
        [PyErr.fileNotFound "Main Image Path Not Found!"] from rfl])⟩

/-- C8: find_image_locations is a pure function of its inputs in this
embedding (the source pipeline has no randomized or stateful stage), so two
calls with identical inputs yield identical ordered result lists. -/
theorem c8_deterministic (m s : Bool) (c : ℚ) (M T : List (List ℤ)) :
    find_image_locations m s c M T = find_image_locations m s c M T := rfl

/-- C10: get_hu_device returns the first device in list order whose
manufacturer shell output contains the substring Harman, and None when no
device in the list matches. -/
theorem c10_get_hu_device (devices : List Device) :
    (∀ d : Device, get_hu_device devices = some d ↔
      ∃ i, i < devices.length ∧ devices.getD i ⟨""⟩ = d ∧ harman d = true ∧
        ∀ j, j < i → harman (devices.getD j ⟨""⟩) = false) ∧
    (get_hu_device devices = none ↔ ∀ d ∈ devices, harman d = false) := by
  induction devices with
  | nil =>
    refine ⟨fun d => ?_, ?_⟩ <;> simp [get_hu_device]
  | cons d0 ds ih =>
    cases hh : harman d0 with
    | true =>
      refine ⟨fun d => ⟨fun hs => ?_, fun hex => ?_⟩, ⟨fun hn => ?_, fun hall => ?_⟩⟩
      · simp only [get_hu_device, hh, if_true, Option.some.injEq] at hs
        exact ⟨0, Nat.succ_pos _, by simpa using hs, hs ▸ hh,
          fun j hj => absurd hj (Nat.not_lt_zero j)⟩
      · obtain ⟨i, hi, hget, hd, hmin⟩ := hex
        cases i with
        | zero =>
          simp only [List.getD_cons_zero] at hget
          subst hget
          simp [get_hu_device, hh]
        | succ k =>
          have h0 := hmin 0 (Nat.succ_pos k)
          simp only [List.getD_cons_zero] at h0
          rw [hh] at h0
          cases h0
      · simp [get_hu_device, hh] at hn
      · have h0 := hall d0 (List.mem_cons_self d0 ds)
        rw [hh] at h0
        cases h0
    | false =>
      have key : get_hu_device (d0 :: ds) = get_hu_device ds := by
        simp [get_hu_device, hh]
      refine ⟨fun d => ?_, ?_⟩
      · rw [key, ih.1 d]
        constructor
        · rintro ⟨i, hi, hget, hd, hmin⟩
          refine ⟨i + 1, Nat.succ_lt_succ hi, by simpa using hget, hd, fun j hj => ?_⟩
          cases j with
          | zero => simpa using hh
          | succ j2 => simpa using hmin j2 (Nat.lt_of_succ_lt_succ hj)
        · rintro ⟨i, hi, hget, hd, hmin⟩
          cases i with
          | zero =>
            simp only [List.getD_cons_zero] at hget
            rw [← hget, hh] at hd
            cases hd
          | succ k =>
            refine ⟨k, Nat.lt_of_succ_lt_succ hi, by simpa using hget, hd, fun j hj => ?_⟩
            simpa using hmin (j + 1) (Nat.succ_lt_succ hj)
      · rw [key, ih.2]
        constructor
        · intro hall d hd
          rcases List.mem_cons.mp hd with rfl | hmem
          · exact hh
          · exact hall d hmem
        · intro hall d hd
          exact hall d (List.mem_cons_of_mem _ hd)

/-- The threshold filter re-zips what np.where unzipped: it is the map of
the center conversion over the passing cells in scan order. -/
theorem thresholdPoints_eq_map {α : Type} (ge : α → Bool) (S : List (List α)) (w h : ℕ) :
    thresholdPoints ge S w h =
      (passingCells ge S).map (fun p => (p.2 + w / 2, p.1 + h / 2)) := by
  show (((passingCells ge S).map (fun p => p.2)).zip
      ((passingCells ge S).map (fun p => p.1))).map (fun xy => (xy.1 + w / 2, xy.2 + h / 2)) = _
  rw [List.zip_map', List.map_map]
  rfl

/-- Per-row shape of the threshold filter: filtering the enumerated row and
keeping indices equals filterMap over the index range. -/
theorem passRow {α : Type} (ge : α → Bool) (v0 : α) :
    ∀ (row : List α) (g : ℕ → Point),
      (row.enum.filter (fun jv => ge jv.2)).map (fun jv => g jv.1) =
        (List.range row.length).filterMap
          (fun j => if ge (row.getD j v0) then some (g j) else none) := by
  intro row
  induction row with
  | nil => intro g; rfl
  | cons a l ih =>
    intro g
    rw [List.enum_cons', List.length_cons, List.range_succ_eq_map, List.filterMap_cons]
    rw [List.filter_cons]
    cases hga : ge a with
    | true =>
      simp only [hga, if_true, List.getD_cons_zero, List.map_cons]
      rw [List.filter_map, List.map_map, List.filterMap_map]
      refine congrArg (List.cons (g 0)) ?_
      have hcomp :
          ((fun jv => g jv.1) ∘ Prod.map (· + 1) (id : α → α)) = fun jv => g (jv.1 + 1) := rfl
      have hcomp2 : ((fun jv => ge jv.2) ∘ Prod.map (· + 1) (id : α → α)) =
          fun jv : ℕ × α => ge jv.2 := rfl
      rw [hcomp, hcomp2]
      have hrhs : ((fun j => if ge ((a :: l).getD j v0) then some (g j) else none) ∘ Nat.succ) =
          fun j => if ge (l.getD j v0) then some (g (j + 1)) else none := rfl
      rw [hrhs]
      exact ih (fun n => g (n + 1))
    | false =>
      simp only [hga, if_false, List.getD_cons_zero, Bool.false_eq_true]
      rw [List.filter_map, List.map_map, List.filterMap_map]
      have hcomp :
          ((fun jv => g jv.1) ∘ Prod.map (· + 1) (id : α → α)) = fun jv => g (jv.1 + 1) := rfl
      have hcomp2 : ((fun jv => ge jv.2) ∘ Prod.map (· + 1) (id : α → α)) =
          fun jv : ℕ × α => ge jv.2 := rfl
      rw [hcomp, hcomp2]
      have hrhs : ((fun j => if ge ((a :: l).getD j v0) then some (g j) else none) ∘ Nat.succ) =
          fun j => if ge (l.getD j v0) then some (g (j + 1)) else none := rfl
      rw [hrhs]
      exact ih (fun n => g (n + 1))

/-- The enumeration of a list written through its length and getD. -/
theorem enum_eq_range_getD {α : Type} (d : α) :
    ∀ (S : List α), S.enum = (List.range S.length).map (fun i => (i, S.getD i d)) := by
  intro S
  induction S with
  | nil => rfl
  | cons a l ih =>
    rw [List.enum_cons', ih, List.length_cons, List.range_succ_eq_map]
    simp only [List.map_cons, List.map_map, List.getD_cons_zero]
    refine congrArg (List.cons (0, a)) ?_
    refine List.map_congr_left ?_
    intro i _
    rfl

/-- C5: for every score matrix and confidence threshold, the candidate list
produced by np.where plus the zip of the reversed index arrays is exactly
the row-major scan (y ascending, then x ascending) of the cells passing the
inclusive comparison, each converted to the center (j + w / 2, i + h / 2)
with floor division. -/
theorem c5_threshold_row_major (c : ℚ) (S : List (List NCCScore)) (w h : ℕ) :
    thresholdPoints (fun s => s.geB c) S w h =
      specCandidates (fun s => s.geB c) { num := 0, den2 := 1 } S w h := by
  rw [thresholdPoints_eq_map]
  unfold passingCells specCandidates
  rw [List.map_flatten, List.map_map, enum_eq_range_getD ([] : List NCCScore), List.map_map]
  refine congrArg List.flatten ?_
  refine List.map_congr_left ?_
  intro i _
  have hstep :
      ((fun l => l.map fun p : ℕ × ℕ => (p.2 + w / 2, p.1 + h / 2)) ∘
        (fun ir : ℕ × List NCCScore =>
          (ir.2.enum.filter (fun jv => jv.2.geB c)).map (fun jv => (ir.1, jv.1)))) ∘
        (fun i => (i, S.getD i [])) =
      fun i => ((S.getD i []).enum.filter (fun jv => jv.2.geB c)).map
        (fun jv => (jv.1 + w / 2, i + h / 2)) := by
    funext i
    simp only [Function.comp, List.map_map]
    rfl
  rw [hstep]
  exact passRow (fun s => s.geB c) { num := 0, den2 := 1 } (S.getD i [])
    (fun j => (j + w / 2, i + h / 2))

/-- The passing cells are pairwise distinct: row indices differ across rows
and column indices differ within a row. -/
theorem passingCells_nodup {α : Type} (ge : α → Bool) (S : List (List α)) :
    (passingCells ge S).Nodup := by
  unfold passingCells
  rw [List.nodup_flatten]
  constructor
  · intro l hl
    rw [List.mem_map] at hl
    obtain ⟨ir, _, rfl⟩ := hl
    have h1 : List.Sublist
        ((ir.2.enum.filter (fun jv => ge jv.2)).map (fun jv => ((ir.1, jv.1) : ℕ × ℕ)))
        (ir.2.enum.map (fun jv => (ir.1, jv.1))) :=
      (List.filter_sublist _).map _
    refine h1.nodup ?_
    have h2 : ir.2.enum.map (fun jv => ((ir.1, jv.1) : ℕ × ℕ)) =
        (ir.2.enum.map Prod.fst).map (fun x => (ir.1, x)) := by
      rw [List.map_map]
      rfl
    rw [h2, List.enum_map_fst]
    exact (List.nodup_range _).map (fun a b hab => (Prod.ext_iff.mp hab).2)
  · rw [List.pairwise_map]
    have hp : S.enum.Pairwise (fun p q => p.1 ≠ q.1) := by
      have hn := List.nodup_enum_map_fst S
      unfold List.Nodup at hn
      rwa [List.pairwise_map] at hn
    refine hp.imp ?_
    intro p q hpq x hxp hxq
    rw [List.mem_map] at hxp hxq
    obtain ⟨jv, _, rfl⟩ := hxp
    obtain ⟨jv2, _, h2⟩ := hxq
    exact hpq (Prod.ext_iff.mp h2.symm).1

/-- C9: for every score matrix and confidence threshold, no pixel coordinate
appears more than once in the candidate list the threshold filter produces:
distinct passing cells map to distinct window centers. -/
theorem c9_candidates_nodup (c : ℚ) (S : List (List NCCScore)) (w h : ℕ) :
    (thresholdPoints (fun s => s.geB c) S w h).Nodup := by
  rw [thresholdPoints_eq_map]
  refine (passingCells_nodup _ _).map ?_
  intro p q hpq
  obtain ⟨h1, h2⟩ := Prod.ext_iff.mp hpq
  exact Prod.ext (Nat.add_right_cancel h2) (Nat.add_right_cancel h1)



/-- Squared Euclidean distance is symmetric. -/
theorem sqDist_symm (p q : Point) : sqDist p q = sqDist q p := by
  unfold sqDist natDist
  rw [Nat.add_comm (p.1 - q.1) (q.1 - p.1), Nat.add_comm (p.2 - q.2) (q.2 - p.2)]

/-- Euclidean nearness of points is symmetric. -/
theorem nearB_symm (p q : Point) : nearB p q = nearB q p := by
  unfold nearB
  exact congrArg (fun n => decide (n ≤ 25)) (sqDist_symm p q)

/-- One-step eps-connection is symmetric. -/
theorem stepRel_symm (pts : List Point) (k : ℕ) : Symmetric (stepRel pts k) := by
  intro a b hab
  obtain ⟨ha, hb, hn⟩ := hab
  exact ⟨hb, ha, by rw [nearB_symm]; exact hn⟩

/-- Cluster connection is symmetric. -/
theorem connUpTo_symm (pts : List Point) (k : ℕ) {a b : ℕ} (h : connUpTo pts k a b) :
    connUpTo pts k b a :=
  Relation.ReflTransGen.symmetric (stepRel_symm pts k) h

/-- Cluster connection among the first k points also holds among the first
k2 >= k points. -/
theorem connUpTo_mono (pts : List Point) {k k2 : ℕ} (hk : k ≤ k2) {a b : ℕ}
    (h : connUpTo pts k a b) : connUpTo pts k2 a b := by
  refine Relation.ReflTransGen.mono ?_ h
  intro x y hxy
  exact ⟨Nat.lt_of_lt_of_le hxy.1 hk, Nat.lt_of_lt_of_le hxy.2.1 hk, hxy.2.2⟩

/-- Unrolling one scan step of the incremental component construction. -/
theorem compsUpTo_succ (pts : List Point) (k : ℕ) :
    compsUpTo pts (k + 1) = mergeInsert (touchB pts k) k (compsUpTo pts k) := by
  rw [compsUpTo, compsUpTo, List.range_succ, List.foldl_append, List.foldl_cons, List.foldl_nil]

/-- Invariant of the incremental component construction: after scanning the
first k indices, the flattened components are a permutation of range k,
every component is closed under one eps-step among the first k indices,
and any two members of one component are cluster-connected. -/
theorem compsUpTo_inv (pts : List Point) (k : ℕ) :
    ((compsUpTo pts k).flatten).Perm (List.range k) ∧
    (∀ c ∈ compsUpTo pts k, ∀ a ∈ c, ∀ b, stepRel pts k a b → b ∈ c) ∧
    (∀ c ∈ compsUpTo pts k, ∀ a ∈ c, ∀ b ∈ c, connUpTo pts k a b) := by
  induction k with
  | zero => exact ⟨by simp [compsUpTo], by simp [compsUpTo], by simp [compsUpTo]⟩
  | succ k ih =>
    obtain ⟨hperm, hclo, hconn⟩ := ih
    have hmem : ∀ a, a ∈ (compsUpTo pts k).flatten ↔ a < k := by
      intro a
      rw [hperm.mem_iff, List.mem_range]
    have hex : ∀ a, a < k → ∃ c, c ∈ compsUpTo pts k ∧ a ∈ c := by
      intro a ha
      exact List.mem_flatten.mp ((hmem a).mpr ha)
    have hbound : ∀ c ∈ compsUpTo pts k, ∀ a ∈ c, a < k := by
      intro c hc a hac
      exact (hmem a).mp (List.mem_flatten.mpr ⟨c, hc, hac⟩)
    have htouch : ∀ c : List ℕ, touchB pts k c = true ↔
        ∃ m ∈ c, nearB (pts.getD m (0, 0)) (pts.getD k (0, 0)) = true := by
      intro c
      simp [touchB, List.any_eq_true]
    refine ⟨?_, ?_, ?_⟩
    · rw [compsUpTo_succ, mergeInsert, List.flatten_cons, List.cons_append, ← List.flatten_append]
      refine List.Perm.trans (List.Perm.cons k
        (((List.filter_append_perm (touchB pts k) (compsUpTo pts k)).flatten).trans hperm)) ?_
      rw [List.range_succ]
      exact (List.perm_append_singleton k (List.range k)).symm
    · rw [compsUpTo_succ, mergeInsert]
      intro c hc a hac b hb
      obtain ⟨ha1, hb1, hnear⟩ := hb
      rcases List.mem_cons.mp hc with rfl | hcrest
      · by_cases hbk : b = k
        · subst hbk
          exact List.mem_cons_self _ _
        · have hbk2 : b < k := Nat.lt_of_le_of_ne (Nat.lt_succ_iff.mp hb1) hbk
          obtain ⟨cb, hcb, hbcb⟩ := hex b hbk2
          rcases List.mem_cons.mp hac with hak | haflat
          · have htcb : touchB pts k cb = true :=
              (htouch cb).mpr ⟨b, hbcb, by rw [nearB_symm, ← hak]; exact hnear⟩
            exact List.mem_cons_of_mem _
              (List.mem_flatten.mpr ⟨cb, List.mem_filter.mpr ⟨hcb, htcb⟩, hbcb⟩)
          · obtain ⟨ca, hcaf, haca⟩ := List.mem_flatten.mp haflat
            have hca : ca ∈ compsUpTo pts k := (List.mem_filter.mp hcaf).1
            have hak : a < k := hbound ca hca a haca
            have hbca : b ∈ ca := hclo ca hca a haca b ⟨hak, hbk2, hnear⟩
            exact List.mem_cons_of_mem _ (List.mem_flatten.mpr ⟨ca, hcaf, hbca⟩)
      · have hcC : c ∈ compsUpTo pts k := (List.mem_filter.mp hcrest).1
        have hcnt : touchB pts k c = false := by
          have h2 := (List.mem_filter.mp hcrest).2
          simpa using h2
        have hak : a < k := hbound c hcC a hac
        by_cases hbk : b = k
        · exfalso
          have h3 : touchB pts k c = true := (htouch c).mpr ⟨a, hac, hbk ▸ hnear⟩
          rw [hcnt] at h3
          cases h3
        · have hbk2 : b < k := Nat.lt_of_le_of_ne (Nat.lt_succ_iff.mp hb1) hbk
          exact hclo c hcC a hac b ⟨hak, hbk2, hnear⟩
    · rw [compsUpTo_succ, mergeInsert]
      have hMk : ∀ a, a ∈ (k :: ((compsUpTo pts k).filter (touchB pts k)).flatten) →
          connUpTo pts (k + 1) a k := by
        intro a ha
        rcases List.mem_cons.mp ha with rfl | haflat
        · exact Relation.ReflTransGen.refl
        · obtain ⟨ca, hcaf, haca⟩ := List.mem_flatten.mp haflat
          obtain ⟨hca, htca⟩ := List.mem_filter.mp hcaf
          obtain ⟨m, hmca, hmnear⟩ := (htouch ca).mp htca
          have hmk : m < k := hbound ca hca m hmca
          have conn1 : connUpTo pts (k + 1) a m :=
            connUpTo_mono pts (Nat.le_succ k) (hconn ca hca a haca m hmca)
          exact conn1.tail ⟨Nat.lt_succ_of_lt hmk, Nat.lt_succ_self k, hmnear⟩
      intro c hc a hac b hbc
      rcases List.mem_cons.mp hc with rfl | hcrest
      · exact (hMk a hac).trans (connUpTo_symm pts (k + 1) (hMk b hbc))
      · have hcC : c ∈ compsUpTo pts k := (List.mem_filter.mp hcrest).1
        exact connUpTo_mono pts (Nat.le_succ k) (hconn c hcC a hac b hbc)


/-- Bool contains coincides with list membership for index lists. -/
theorem contains_iff_memN {c : List ℕ} {a : ℕ} : c.contains a = true ↔ a ∈ c := by
  simp [List.contains_iff_exists_mem_beq]

/-- The flattened final components enumerate exactly the point indices. -/
theorem components_flatten_perm (pts : List Point) :
    (components pts).flatten.Perm (List.range pts.length) :=
  (compsUpTo_inv pts pts.length).1

/-- Distinct final components are pairwise disjoint. -/
theorem components_disjoint (pts : List Point) :
    (components pts).Pairwise List.Disjoint := by
  have hnd : (components pts).flatten.Nodup :=
    (components_flatten_perm pts).symm.nodup (List.nodup_range _)
  exact (List.nodup_flatten.mp hnd).2

/-- Every valid index lies in some final component. -/
theorem mem_components (pts : List Point) {i : ℕ} (hi : i < pts.length) :
    ∃ c, c ∈ components pts ∧ i ∈ c := by
  have hmem : i ∈ (components pts).flatten :=
    (components_flatten_perm pts).mem_iff.mpr (List.mem_range.mpr hi)
  exact List.mem_flatten.mp hmem

/-- Members of final components are valid indices. -/
theorem components_mem_lt (pts : List Point) {c : List ℕ} {i : ℕ}
    (hc : c ∈ components pts) (hic : i ∈ c) : i < pts.length := by
  have hmem : i ∈ (components pts).flatten := List.mem_flatten.mpr ⟨c, hc, hic⟩
  exact List.mem_range.mp ((components_flatten_perm pts).mem_iff.mp hmem)

/-- In a pairwise-disjoint family, a shared member forces equality. -/
theorem pairwise_disjoint_unique {L : List (List ℕ)} (hL : L.Pairwise List.Disjoint)
    {c d : List ℕ} {i : ℕ} (hc : c ∈ L) (hd : d ∈ L) (hic : i ∈ c) (hid : i ∈ d) :
    c = d := by
  induction L with
  | nil => cases hc
  | cons x rest ih =>
    obtain ⟨hx, hrest⟩ := List.pairwise_cons.mp hL
    rcases List.mem_cons.mp hc with rfl | hcr
    · rcases List.mem_cons.mp hd with rfl | hdr
      · rfl
      · exact (hx d hdr hic hid).elim
    · rcases List.mem_cons.mp hd with rfl | hdr
      · exact (hx c hcr hid hic).elim
      · exact ih hrest hcr hdr

/-- Same final component is exactly cluster connection. -/
theorem sameCompB_iff_connUpTo (pts : List Point) {i j : ℕ}
    (hi : i < pts.length) (hj : j < pts.length) :
    sameCompB pts i j = true ↔ connUpTo pts pts.length i j := by
  constructor
  · intro hs
    obtain ⟨c, hcL, hcij⟩ := List.any_eq_true.mp hs
    rw [Bool.and_eq_true] at hcij
    exact (compsUpTo_inv pts pts.length).2.2 c hcL i (contains_iff_memN.mp hcij.1) j
      (contains_iff_memN.mp hcij.2)
  · intro hconn
    obtain ⟨ci, hciL, hici⟩ := mem_components pts hi
    have hjci : j ∈ ci := by
      clear hi hj
      induction hconn with
      | refl => exact hici
      | tail hab hbc ihb =>
        exact (compsUpTo_inv pts pts.length).2.1 ci hciL _ ihb _ hbc
    exact List.any_eq_true.mpr ⟨ci, hciL, by
      rw [Bool.and_eq_true]
      exact ⟨contains_iff_memN.mpr hici, contains_iff_memN.mpr hjci⟩⟩

/-- The label of a valid index is the position of the component found by
findIdx. -/
theorem labels_getD (pts : List Point) {i : ℕ} (hi : i < pts.length) :
    (dbscanLabels pts).getD i 0 = (components pts).findIdx (fun c => c.contains i) := by
  unfold dbscanLabels
  rw [List.getD_eq_getElem?_getD, List.getElem?_map, List.getElem?_range hi]
  rfl

/-- findIdx with the containment test locates the unique component of a
member index. -/
theorem findIdx_component (pts : List Point) {i : ℕ} {c : List ℕ}
    (hc : c ∈ components pts) (hic : i ∈ c) :
    (components pts).findIdx (fun d => d.contains i) < (components pts).length ∧
    (components pts).getD ((components pts).findIdx (fun d => d.contains i)) [] = c := by
  have hex : ∃ x ∈ components pts, x.contains i = true := ⟨c, hc, contains_iff_memN.mpr hic⟩
  have hlt : (components pts).findIdx (fun d => d.contains i) < (components pts).length :=
    List.findIdx_lt_length_of_exists hex
  refine ⟨hlt, ?_⟩
  rw [List.getD_eq_getElem?_getD, List.getElem?_eq_getElem hlt]
  have hcont : ((components pts)[(components pts).findIdx (fun d => d.contains i)]).contains i
      = true := List.findIdx_getElem (w := hlt)
  exact pairwise_disjoint_unique (components_disjoint pts)
    (List.getElem_mem hlt) hc (contains_iff_memN.mp hcont) hic

/-- Positions of components sharing an element coincide. -/
theorem comp_pos_unique (pts : List Point) {p q i : ℕ}
    (hp : p < (components pts).length) (hq : q < (components pts).length)
    (hip : i ∈ (components pts).getD p []) (hiq : i ∈ (components pts).getD q []) :
    p = q := by
  rw [List.getD_eq_getElem?_getD, List.getElem?_eq_getElem hp] at hip
  rw [List.getD_eq_getElem?_getD, List.getElem?_eq_getElem hq] at hiq
  rcases Nat.lt_trichotomy p q with hlt | heq | hgt
  · exact ((List.pairwise_iff_getElem.mp (components_disjoint pts) p q hp hq hlt) hip hiq).elim
  · exact heq
  · exact ((List.pairwise_iff_getElem.mp (components_disjoint pts) q p hq hp hgt) hiq hip).elim

/-- Labels agree exactly on same-component index pairs. -/
theorem labels_eq_iff_sameComp (pts : List Point) {i j : ℕ}
    (hi : i < pts.length) (hj : j < pts.length) :
    ((dbscanLabels pts).getD i 0 = (dbscanLabels pts).getD j 0) ↔
      sameCompB pts i j = true := by
  rw [labels_getD pts hi, labels_getD pts hj]
  constructor
  · intro heq
    obtain ⟨ci, hciL, hici⟩ := mem_components pts hi
    obtain ⟨cj, hcjL, hjcj⟩ := mem_components pts hj
    obtain ⟨hlti, hgeti⟩ := findIdx_component pts hciL hici
    obtain ⟨hltj, hgetj⟩ := findIdx_component pts hcjL hjcj
    have hcc : ci = cj := by rw [← hgeti, heq, hgetj]
    exact List.any_eq_true.mpr ⟨ci, hciL, by
      rw [Bool.and_eq_true]
      exact ⟨contains_iff_memN.mpr hici, contains_iff_memN.mpr (hcc.symm ▸ hjcj)⟩⟩
  · intro hs
    obtain ⟨c, hcL, hcij⟩ := List.any_eq_true.mp hs
    rw [Bool.and_eq_true] at hcij
    have hic : i ∈ c := contains_iff_memN.mp hcij.1
    have hjc : j ∈ c := contains_iff_memN.mp hcij.2
    obtain ⟨hlti, hgeti⟩ := findIdx_component pts hcL hic
    obtain ⟨hltj, hgetj⟩ := findIdx_component pts hcL hjc
    refine comp_pos_unique pts (i := i) hlti hltj ?_ ?_
    · rw [hgeti]; exact hic
    · rw [hgetj]; exact hic


/-- The dedup loop of lines 82-87 emits, in index order, the point of every
index whose label is fresh: not yet in the used set and not equal to any
earlier label. -/
theorem dedupRec_char (pts : List Point) :
    ∀ (labels used : List ℕ) (idx : ℕ),
      dedupRec pts idx used labels =
        ((List.range labels.length).filter (fun t =>
            !(used.contains (labels.getD t 0)) &&
            (List.range t).all (fun u => labels.getD u 0 != labels.getD t 0))).map
          (fun t => pts.getD (idx + t) (0, 0)) := by
  intro labels
  induction labels with
  | nil => intro used idx; rfl
  | cons l ls ih =>
    intro used idx
    have hunf : dedupRec pts idx used (l :: ls) =
        if used.contains l then dedupRec pts (idx + 1) used ls
        else pts.getD idx (0, 0) :: dedupRec pts (idx + 1) (l :: used) ls := rfl
    rw [List.length_cons, List.range_succ_eq_map]
    rw [List.filter_cons, List.filter_map]
    have hzero : (!(used.contains ((l :: ls).getD 0 0)) &&
        (List.range 0).all (fun u => (l :: ls).getD u 0 != (l :: ls).getD 0 0)) =
        !(used.contains l) := by
      simp
    rw [hzero]
    have hcomp : ((fun t =>
        !(used.contains ((l :: ls).getD t 0)) &&
        (List.range t).all (fun u => (l :: ls).getD u 0 != (l :: ls).getD t 0)) ∘ Nat.succ) =
        fun t => !(used.contains (ls.getD t 0)) &&
          ((l != ls.getD t 0) && (List.range t).all (fun u => ls.getD u 0 != ls.getD t 0)) := by
      funext t
      simp only [Function.comp, List.getD_cons_succ]
      refine congrArg (fun b => !(used.contains (ls.getD t 0)) && b) ?_
      rw [List.range_succ_eq_map, List.all_cons, List.all_map]
      rfl
    rw [hcomp, hunf]
    have hfun : ((fun t => pts.getD (idx + t) (0, 0)) ∘ Nat.succ) =
        fun t => pts.getD (idx + 1 + t) (0, 0) := by
      funext t
      refine congrArg (fun n => pts.getD n ((0, 0) : Point)) ?_
      omega
    cases hu : used.contains l with
    | true =>
      rw [if_pos rfl, Bool.not_true, if_neg (by simp)]
      rw [ih used (idx + 1), List.map_map, hfun]
      refine congrArg _ ?_
      refine List.filter_congr ?_
      intro t ht
      cases hut : used.contains (ls.getD t 0) with
      | true => simp
      | false =>
        have hne : (l != ls.getD t 0) = true := by
          rw [bne_iff_ne]
          intro hleq
          rw [← hleq, hu] at hut
          cases hut
        rw [hne, Bool.true_and]
    | false =>
      rw [if_neg (by simp), Bool.not_false, if_pos rfl]
      rw [ih (l :: used) (idx + 1), List.map_cons, Nat.add_zero, List.map_map, hfun]
      refine congrArg _ ?_
      refine congrArg _ ?_
      refine List.filter_congr ?_
      intro t ht
      rw [List.contains_cons]
      cases hut : used.contains (ls.getD t 0) with
      | true => simp
      | false =>
        cases hle : (ls.getD t 0 == l) with
        | true =>
          have hbne : (l != ls.getD t 0) = false := by
            have hleq : ls.getD t 0 = l := beq_iff_eq.mp hle
            rw [hleq]
            simp [bne]
          rw [hbne]
          simp
        | false =>
          have hbne : (l != ls.getD t 0) = true := by
            rw [bne_iff_ne]
            intro hleq
            exact ne_of_beq_false hle hleq.symm
          rw [hbne, Bool.or_false, Bool.not_false, Bool.true_and, Bool.true_and]


/-- Pointwise congruence for the Bool-valued all combinator. -/
theorem all_congrL {L : List ℕ} {p q : ℕ → Bool} (h : ∀ x ∈ L, p x = q x) :
    L.all p = L.all q := by
  induction L with
  | nil => rfl
  | cons a l ihl =>
    rw [List.all_cons, List.all_cons, h a (List.mem_cons_self a l),
      ihl (fun x hx => h x (List.mem_cons_of_mem a hx))]

/-- Label inequality is the Bool negation of same-cluster membership. -/
theorem labels_bne_eq (pts : List Point) {u t : ℕ}
    (hu : u < pts.length) (ht : t < pts.length) :
    ((dbscanLabels pts).getD u 0 != (dbscanLabels pts).getD t 0) =
      !(sameCompB pts u t) := by
  cases hs : sameCompB pts u t with
  | true =>
    have heq : (dbscanLabels pts).getD u 0 = (dbscanLabels pts).getD t 0 :=
      (labels_eq_iff_sameComp pts hu ht).mpr hs
    rw [heq]
    simp
  | false =>
    have hne : (dbscanLabels pts).getD u 0 ≠ (dbscanLabels pts).getD t 0 := by
      intro heq
      have hs2 := (labels_eq_iff_sameComp pts hu ht).mp heq
      rw [hs] at hs2
      cases hs2
    rw [Bool.not_false]
    exact bne_iff_ne.mpr hne

/-- C4, counterexample: the claim quantifies over every list of candidate
points, but on the empty candidate list the clustering stage raises the
sklearn ValueError (np.array([], dtype=int) is a 1-D zero-sample array)
and produces no output list at all, so no point-to-cluster assignment or
representative list is emitted there. -/
theorem c4_counterexample :
    dbscanDedup ([] : List Point) =
      Except.error (PyErr.valueError "Expected 2D array, got 1D array instead") ∧
    ∀ l : List Point, dbscanDedup ([] : List Point) ≠ Except.ok l :=
  ⟨rfl, fun _ h => Except.noConfusion h⟩

/-- C4 (amended): on every nonempty candidate list the clustering stage
assigns each point to exactly one cluster, cluster membership being the
transitive closure of direct eps = 5 connection (connUpTo); the dedup loop
returns, in input scan order, the point of every index that has no earlier
same-cluster index, i.e. the first-encountered representative of each
cluster, ordered by first appearance.  On the empty candidate list the
stage raises instead of producing an output (see c4_counterexample). -/
theorem c4_cluster_first_seen (pts : List Point) (hne : pts ≠ []) :
    dbscanDedup pts = Except.ok
      (((List.range pts.length).filter (fun i =>
          (List.range i).all (fun j => !(sameCompB pts j i)))).map
        (fun i => pts.getD i (0, 0))) ∧
    (∀ i j, i < pts.length → j < pts.length →
      (sameCompB pts i j = true ↔ connUpTo pts pts.length i j)) ∧
    (∀ i, i < pts.length → ∃! c, c ∈ components pts ∧ i ∈ c) := by
  refine ⟨?_, fun i j hi hj => sameCompB_iff_connUpTo pts hi hj, fun i hi => ?_⟩
  · have hok : dbscanDedup pts = Except.ok (dedupRec pts 0 [] (dbscanLabels pts)) := by
      cases pts with
      | nil => exact absurd rfl hne
      | cons p0 rest => rfl
    rw [hok, dedupRec_char]
    have hlen : (dbscanLabels pts).length = pts.length := by
      simp [dbscanLabels]
    rw [hlen]
    refine congrArg Except.ok ?_
    have hmapf : (fun t => pts.getD (0 + t) ((0, 0) : Point)) =
        fun t => pts.getD t (0, 0) := by
      funext t
      rw [Nat.zero_add]
    rw [hmapf]
    refine congrArg _ ?_
    refine List.filter_congr ?_
    intro t ht
    have htn : t < pts.length := List.mem_range.mp ht
    rw [List.contains_nil, Bool.not_false, Bool.true_and]
    refine all_congrL ?_
    intro u hu
    have hut : u < t := List.mem_range.mp hu
    exact labels_bne_eq pts (Nat.lt_trans hut htn) htn
  · obtain ⟨c, hc, hic⟩ := mem_components pts hi
    refine ⟨c, ⟨hc, hic⟩, ?_⟩
    rintro d ⟨hd, hid⟩
    exact pairwise_disjoint_unique (components_disjoint pts) hd hc hid hic

/-- Witness for c4_cluster_first_seen at the one-point list. -/
theorem c4_witness :
    (([((0 : ℕ), (0 : ℕ))] : List Point) ≠ []) ∧
    (dbscanDedup [((0 : ℕ), (0 : ℕ))] = Except.ok
      (((List.range ([((0 : ℕ), (0 : ℕ))] : List Point).length).filter (fun i =>
          (List.range i).all (fun j => !(sameCompB [((0 : ℕ), (0 : ℕ))] j i)))).map
        (fun i => ([((0 : ℕ), (0 : ℕ))] : List Point).getD i (0, 0))) ∧
    (∀ i j, i < ([((0 : ℕ), (0 : ℕ))] : List Point).length →
      j < ([((0 : ℕ), (0 : ℕ))] : List Point).length →
      (sameCompB [((0 : ℕ), (0 : ℕ))] i j = true ↔
        connUpTo [((0 : ℕ), (0 : ℕ))] ([((0 : ℕ), (0 : ℕ))] : List Point).length i j)) ∧
    (∀ i, i < ([((0 : ℕ), (0 : ℕ))] : List Point).length →
      ∃! c, c ∈ components [((0 : ℕ), (0 : ℕ))] ∧ i ∈ c)) :=
  ⟨by simp, c4_cluster_first_seen [((0 : ℕ), (0 : ℕ))] (by simp)⟩

end AndroidSim
